import Mathlib

/-!
Shallow embedding of `src/orange_analyzer.py` (repository
Ahnhyeongkyu/orange-sweetness-ai).

The module parses free-text replies of an external vision model into
`OrangeAnalysisResult` records, ranks multi-image batches, and falls back
to per-image analysis when the batch path fails.

Embedding conventions:
* A raw response text is represented by the outcome of the extraction +
  `json.loads` step: `none` stands for a text whose extracted JSON source
  fails to decode (`json.JSONDecodeError`), `some d` for a text that
  decodes to the structured value `d`.  The regex fence-extraction itself
  is content-neutral for every claim and is folded into this outcome.
* The vision capability (`VisionAPIBase`) is a record of functions
  returning `Except String _`: `Except.error e` stands for a raised
  provider failure with message `e`, `Except.ok` for a returned text
  (already decoded as above).  Prompt strings do not influence any claim
  and are not modelled as data.
* Python numbers (ints and floats of the decoded JSON) are modelled as
  `ℚ`; Python truthiness of a number is `≠ 0`, of a string `≠ ""`, and a
  missing key is `none`.
* Python's `list.sort` (Timsort) is a stable sort by key; `sortOn` below
  is a stable insertion sort by key, which computes the same list.
  `reverse=True` (stable descending) is embedded as stable ascending sort
  on the negated key, which again computes the same list.
* All embedded operations are total Lean functions: the Python code
  catches every exception on the paths the claims are about, so no
  propagated-failure branch remains.
-/

/-- Embeds the dataclass `OrangeAnalysisResult` of `orange_analyzer.py`
(every field but `is_orange` is `Optional` with default `None`). -/
structure OrangeAnalysisResult where
  is_orange : Bool
  sweetness_grade : Option String := none
  brix_range : Option String := none
  brix_min : Option ℚ := none
  brix_max : Option ℚ := none
  sweetness_score : Option ℚ := none
  confidence_score : Option ℚ := none
  rank : Option Int := none
  analysis_reason : Option String := none
  color_analysis : Option String := none
  surface_analysis : Option String := none
  ripeness_analysis : Option String := none
  error_message : Option String := none
deriving Repr, DecidableEq

/-- The fields of a decoded single-image JSON object that
`_parse_single_response` reads via `data.get(...)`; a `none` field stands
for a missing key. -/
structure SingleData where
  is_orange : Option Bool := none
  sweetness_grade : Option String := none
  brix_min : Option ℚ := none
  brix_max : Option ℚ := none
  sweetness_score : Option ℚ := none
  confidence_score : Option ℚ := none
  analysis_reason : Option String := none
  color_analysis : Option String := none
  surface_analysis : Option String := none
  ripeness_analysis : Option String := none
deriving Repr, DecidableEq

/-- The fields of one element of a decoded multi-image JSON array that
`_parse_multi_response` reads via `data.get(...)`. -/
structure MultiData where
  image_index : Option Int := none
  rank : Option Int := none
  sweetness_grade : Option String := none
  brix_min : Option ℚ := none
  brix_max : Option ℚ := none
  sweetness_score : Option ℚ := none
  confidence_score : Option ℚ := none
  analysis_reason : Option String := none
  comparison_note : Option String := none
  color_analysis : Option String := none
  surface_analysis : Option String := none
  ripeness_analysis : Option String := none
deriving Repr, DecidableEq

/-- The vision capability consumed by `OrangeAnalyzer` (class
`VisionAPIBase` of `src/vision_api.py`); `β` is the type of raw image
bytes.  `Except.error e` embeds a raised provider exception with message
`e`; the `Except.ok` payload is the returned response text folded into
its JSON-decode outcome (see the module comment). -/
structure VisionAPIBase (β : Type) where
  analyze_image : β → Except String (Option SingleData)
  analyze_multiple_images : List β → Except String (Option (List MultiData))

/-- Embeds the Python guard
`f"{brix_min}~{brix_max}" if brix_min and brix_max else None`
of `_parse_single_response` / `_parse_multi_response`: the display string
is produced only when both bounds are truthy (present and nonzero). -/
def brixRangeOf : Option ℚ → Option ℚ → Option String
  | some a, some b => if a ≠ 0 ∧ b ≠ 0 then some (toString a ++ "~" ++ toString b) else none
  | _, _ => none

/-- Embeds `_parse_single_response` after JSON decoding: `none` is a text
whose extracted JSON source fails to decode (the `json.JSONDecodeError`
handler), `some data` a text decoding to `data`.  The function is total:
the Python handler converts the decode failure into a result instead of
propagating it. -/
def parse_single_response : Option SingleData → OrangeAnalysisResult
  | none =>
    { is_orange := false
      error_message := some "Could not parse analysis result. Please try again." }
  | some data =>
    if data.is_orange.getD false = false then
      { is_orange := false
        error_message := some "This is not an orange image. Please upload an orange photo." }
    else
      { is_orange := true
        sweetness_grade := data.sweetness_grade
        brix_range := brixRangeOf data.brix_min data.brix_max
        brix_min := data.brix_min
        brix_max := data.brix_max
        sweetness_score := data.sweetness_score
        confidence_score := data.confidence_score
        analysis_reason := data.analysis_reason
        color_analysis := data.color_analysis
        surface_analysis := data.surface_analysis
        ripeness_analysis := data.ripeness_analysis }

/-- Embeds `OrangeAnalyzer.analyze`: call the capability, parse on
success, convert a raised failure into a non-orange result with the
failure text embedded. -/
def analyze {β : Type} (api : VisionAPIBase β) (image_data : β) : OrangeAnalysisResult :=
  match api.analyze_image image_data with
  | Except.ok response => parse_single_response response
  | Except.error e =>
    { is_orange := false
      error_message := some ("Error during analysis: " ++ e) }

/-- Embeds the per-element body of `_parse_multi_response`'s loop, from
`comparison_note = data.get("comparison_note", "")` to the
`OrangeAnalysisResult(...)` construction (the element is always built
with `is_orange=True`; `comparison_note`, when truthy, is appended
parenthetically to the `analysis_reason` default `""`). -/
def multiResult (d : MultiData) : OrangeAnalysisResult :=
  let comparison_note := d.comparison_note.getD ""
  let base_reason := d.analysis_reason.getD ""
  let combined_reason :=
    if comparison_note ≠ "" then base_reason ++ " (" ++ comparison_note ++ ")" else base_reason
  { is_orange := true
    sweetness_grade := d.sweetness_grade
    brix_range := brixRangeOf d.brix_min d.brix_max
    brix_min := d.brix_min
    brix_max := d.brix_max
    sweetness_score := d.sweetness_score
    confidence_score := d.confidence_score
    rank := d.rank
    analysis_reason := some combined_reason
    color_analysis := d.color_analysis
    surface_analysis := d.surface_analysis
    ripeness_analysis := d.ripeness_analysis }

/-- Embeds the index handling of `_parse_multi_response`'s loop:
`img_idx = data.get("image_index", 1) - 1` followed by the bounds check
`0 <= img_idx < len(images)`; an out-of-range element is dropped
(`none`), an in-range one is paired with the referenced filename. -/
def multiEntry {β : Type} (images : List (String × β)) (d : MultiData) :
    Option (String × OrangeAnalysisResult) :=
  if 0 ≤ d.image_index.getD 1 - 1 then
    match images[(d.image_index.getD 1 - 1).toNat]? with
    | some pr => some (pr.1, multiResult d)
    | none => none
  else none

/-- Embeds the sort key `x[1].rank if x[1].rank else 999` of
`_parse_multi_response`: a missing rank, and a rank of `0` (falsy in
Python), both become the sentinel `999`. -/
def rankKey : Option Int → Int
  | none => 999
  | some r => if r ≠ 0 then r else 999

/-- Stable insertion of `x` into a key-sorted list: `x` goes before the
first element whose key is `≥ key x`, i.e. after every earlier element
with an equal key — the tie behaviour of Python's stable sort. -/
def insertSorted {α κ : Type} [LinearOrder κ] (key : α → κ) (x : α) : List α → List α
  | [] => [x]
  | y :: ys => if key x ≤ key y then x :: y :: ys else y :: insertSorted key x ys

/-- Stable sort by key, ascending: embeds Python's `list.sort(key=...)`
(equal results on every list, since stable sorts by a key agree). -/
def sortOn {α κ : Type} [LinearOrder κ] (key : α → κ) : List α → List α
  | [] => []
  | x :: xs => insertSorted key x (sortOn key xs)

/-- Embeds the `sort_key` closure of `_fallback_individual_analysis`:
`-1` for a non-orange result, else
`result.sweetness_score or result.brix_max or 0` (Python `or`:
first truthy operand, so a present score of `0` falls through). -/
def sort_key (r : OrangeAnalysisResult) : ℚ :=
  if r.is_orange = false then -1
  else
    match r.sweetness_score with
    | some s => if s ≠ 0 then s else
      match r.brix_max with
      | some b => if b ≠ 0 then b else 0
      | none => 0
    | none =>
      match r.brix_max with
      | some b => if b ≠ 0 then b else 0
      | none => 0

/-- One step of `for rank, (filename, result) in enumerate(results, 1):
result.rank = rank`: the pair at offset `i` gets rank `n + i`. -/
def updRank (n : Int) (p : String × OrangeAnalysisResult) : String × OrangeAnalysisResult :=
  (p.1, { p.2 with rank := some n })

/-- Embeds the rank-assignment loop `enumerate(results, start)` of
`_fallback_individual_analysis` (used with `start = 1`). -/
def assignRanksFrom (n : Int) : List (String × OrangeAnalysisResult) → List (String × OrangeAnalysisResult)
  | [] => []
  | p :: rest => updRank n p :: assignRanksFrom (n + 1) rest

/-- Embeds `_fallback_individual_analysis`: analyze each image
individually, sort by `sort_key` with `reverse=True` (stable descending,
embedded as stable ascending on the negated key), then assign ranks
1..N by final position.  The `error_msg` argument is accepted and unused,
as in the source. -/
def fallback_individual_analysis {β : Type} (api : VisionAPIBase β)
    (images : List (String × β)) (error_msg : String) :
    List (String × OrangeAnalysisResult) :=
  let results := images.map (fun p => (p.1, analyze api p.2))
  let sorted := sortOn (fun p => -(sort_key p.2)) results
  assignRanksFrom 1 sorted

/-- Embeds `_parse_multi_response` after JSON decoding: build one entry
per in-range element, then `results.sort(key=lambda x: x[1].rank if
x[1].rank else 999)`; on decode failure (the `except` arm) delegate to
`_fallback_individual_analysis`. -/
def parse_multi_response {β : Type} (api : VisionAPIBase β)
    (decoded : Option (List MultiData)) (images : List (String × β)) :
    List (String × OrangeAnalysisResult) :=
  match decoded with
  | none => fallback_individual_analysis api images ""
  | some data_list => sortOn (fun p => rankKey p.2.rank) (data_list.filterMap (multiEntry images))

/-- Embeds `OrangeAnalyzer.analyze_multiple`: a singleton list delegates
to `analyze` and forces `rank=1`; otherwise the multi-image capability is
called and its outcome parsed, any raised failure being converted into a
fallback run (`except Exception` arm). -/
def analyze_multiple {β : Type} (api : VisionAPIBase β) (images : List (String × β)) :
    List (String × OrangeAnalysisResult) :=
  match images with
  | [(filename, image_data)] =>
    let result := analyze api image_data
    [(filename, { result with rank := some 1 })]
  | _ =>
    match api.analyze_multiple_images (images.map Prod.snd) with
    | Except.ok response => parse_multi_response api response images
    | Except.error e => fallback_individual_analysis api images e

/-! ### Concrete fixtures used to instantiate the theorems below -/

/-- A capability whose batch call raises and whose single call returns an
undecodable text. -/
def apiFail : VisionAPIBase Nat :=
  { analyze_image := fun _ => Except.ok none
    analyze_multiple_images := fun _ => Except.error "boom" }

/-- A capability agreeing with `apiFail` on the single-image entry point
but not on the multi-image one. -/
def apiAltMulti : VisionAPIBase Nat :=
  { analyze_image := fun _ => Except.ok none
    analyze_multiple_images := fun _ => Except.ok none }

/-- A two-image input list. -/
def imgsTwo : List (String × Nat) := [("a", 0), ("b", 1)]

/-- A capability for which image 1 is an orange whose decoded
`sweetness_score` is present but `0` (with Brix bounds 12 and 14) and
image 2 an orange with score 10. -/
def apiZeroScore : VisionAPIBase Nat :=
  { analyze_image := fun n =>
      if n = 1 then
        Except.ok (some { is_orange := some true, sweetness_score := some 0,
                          brix_min := some 12, brix_max := some 14 })
      else Except.ok (some { is_orange := some true, sweetness_score := some 10 })
    analyze_multiple_images := fun _ => Except.error "x" }

/-- A capability giving three oranges with scores 40, 90 and 70 to the
images 1, 2 and 3. -/
def apiScores : VisionAPIBase Nat :=
  { analyze_image := fun n =>
      if n = 1 then Except.ok (some { is_orange := some true, sweetness_score := some 40 })
      else if n = 2 then Except.ok (some { is_orange := some true, sweetness_score := some 90 })
      else Except.ok (some { is_orange := some true, sweetness_score := some 70 })
    analyze_multiple_images := fun _ => Except.error "x" }

/-- A capability judging image 1 not an orange and every other image an
orange with score 80. -/
def apiNonOrange : VisionAPIBase Nat :=
  { analyze_image := fun n =>
      if n = 1 then Except.ok (some { is_orange := some false })
      else Except.ok (some { is_orange := some true, sweetness_score := some 80 })
    analyze_multiple_images := fun _ => Except.error "x" }

/-- A decoded batch element with no rank, pointing at image 1. -/
def elemNoRank : MultiData := { image_index := some 1, rank := none }

/-- A decoded batch element with the (large) rank 1000, pointing at
image 2. -/
def elemRank1000 : MultiData := { image_index := some 2, rank := some 1000 }

/-- A decoded batch element with rank 1 pointing at image 2. -/
def elemSwap1 : MultiData := { image_index := some 2, rank := some 1 }

/-- A decoded batch element with rank 2 pointing at image 1. -/
def elemSwap2 : MultiData := { image_index := some 1, rank := some 2 }

/-- A decoded batch element carrying both an `analysis_reason` and a
non-empty `comparison_note`. -/
def elemNote : MultiData :=
  { image_index := some 1, analysis_reason := some "High quality",
    comparison_note := some "brighter peel" }

/-- A decoded batch element carrying an `analysis_reason` and an empty
`comparison_note`. -/
def elemEmptyNote : MultiData :=
  { image_index := some 1, analysis_reason := some "High quality",
    comparison_note := some "" }

/-- A decoded batch element with no `image_index` key at all. -/
def elemNoIndex : MultiData := { rank := some 1, sweetness_score := some 55 }

/-- A decoded single-image object with both Brix bounds present and
nonzero. -/
def singleBrix : SingleData :=
  { is_orange := some true, brix_min := some 12, brix_max := some 14 }

/-- A decoded single-image object whose `brix_min` is present but `0`. -/
def singleBrixZero : SingleData :=
  { is_orange := some true, brix_min := some 0, brix_max := some 14 }

/-- A decoded batch element with both Brix bounds present and nonzero. -/
def multiBrix : MultiData :=
  { image_index := some 1, brix_min := some 8, brix_max := some 10 }

/-- Two images keyed so that `apiZeroScore` judges the first one the
zero-score orange. -/
def imgsOneTwo : List (String × Nat) := [("a", 1), ("b", 2)]

/-- Three images keyed 1, 2, 3 (scores 40, 90, 70 under `apiScores`;
non-orange, 80, 80 under `apiNonOrange`). -/
def imgsThree : List (String × Nat) := [("a", 1), ("b", 2), ("c", 3)]

/-- The non-orange shape of an `OrangeAnalysisResult`: every grade, Brix,
score and analysis field absent and a non-empty error message present. -/
abbrev nonOrangeClean (r : OrangeAnalysisResult) : Prop :=
  r.sweetness_grade = none ∧ r.brix_range = none ∧ r.brix_min = none ∧ r.brix_max = none ∧
  r.sweetness_score = none ∧ r.confidence_score = none ∧ r.analysis_reason = none ∧
  r.color_analysis = none ∧ r.surface_analysis = none ∧ r.ripeness_analysis = none ∧
  ∃ m : String, r.error_message = some m ∧ m ≠ ""

/-! ### Helper lemmas about the sorting and ranking combinators -/

theorem perm_insertSorted {α κ : Type} [LinearOrder κ] (key : α → κ) (x : α) :
    ∀ l : List α, List.Perm (insertSorted key x l) (x :: l)
  | [] => List.Perm.refl _
  | y :: ys => by
    unfold insertSorted
    by_cases h : key x ≤ key y
    · simp [h]
    · simp only [if_neg h]
      exact ((perm_insertSorted key x ys).cons y).trans (List.Perm.swap x y ys)

theorem mem_insertSorted {α κ : Type} [LinearOrder κ] (key : α → κ) (x a : α) (l : List α) :
    a ∈ insertSorted key x l ↔ a = x ∨ a ∈ l := by
  rw [(perm_insertSorted key x l).mem_iff, List.mem_cons]

theorem perm_sortOn {α κ : Type} [LinearOrder κ] (key : α → κ) :
    ∀ l : List α, List.Perm (sortOn key l) l
  | [] => List.Perm.refl _
  | x :: xs => (perm_insertSorted key x (sortOn key xs)).trans ((perm_sortOn key xs).cons x)

theorem length_sortOn {α κ : Type} [LinearOrder κ] (key : α → κ) (l : List α) :
    (sortOn key l).length = l.length :=
  (perm_sortOn key l).length_eq

theorem pairwise_insertSorted {α κ : Type} [LinearOrder κ] (key : α → κ) (x : α) :
    ∀ l : List α, l.Pairwise (fun a b => key a ≤ key b) →
      (insertSorted key x l).Pairwise (fun a b => key a ≤ key b)
  | [], _ => by simp [insertSorted]
  | y :: ys, h => by
    rw [List.pairwise_cons] at h
    unfold insertSorted
    by_cases hxy : key x ≤ key y
    · rw [if_pos hxy, List.pairwise_cons, List.pairwise_cons]
      refine ⟨?_, h.1, h.2⟩
      intro a ha
      rcases List.mem_cons.mp ha with rfl | ha
      · exact hxy
      · exact le_trans hxy (h.1 a ha)
    · rw [if_neg hxy, List.pairwise_cons]
      refine ⟨?_, pairwise_insertSorted key x ys h.2⟩
      intro a ha
      rcases (mem_insertSorted key x a ys).mp ha with rfl | ha
      · exact le_of_not_le hxy
      · exact h.1 a ha

theorem pairwise_sortOn {α κ : Type} [LinearOrder κ] (key : α → κ) :
    ∀ l : List α, (sortOn key l).Pairwise (fun a b => key a ≤ key b)
  | [] => List.Pairwise.nil
  | x :: xs => pairwise_insertSorted key x (sortOn key xs) (pairwise_sortOn key xs)

theorem length_assignRanksFrom (n : Int) :
    ∀ l : List (String × OrangeAnalysisResult), (assignRanksFrom n l).length = l.length
  | [] => rfl
  | _ :: rest => congrArg Nat.succ (length_assignRanksFrom (n + 1) rest)

theorem get_assignRanksFrom :
    ∀ (l : List (String × OrangeAnalysisResult)) (n : Int) (i : Nat)
      (hi : i < (assignRanksFrom n l).length) (hl : i < l.length),
      (assignRanksFrom n l).get ⟨i, hi⟩ = updRank (n + i) (l.get ⟨i, hl⟩)
  | p :: rest, n, 0, _, _ => by simp [assignRanksFrom]
  | p :: rest, n, i + 1, hi, hl => by
    have h := get_assignRanksFrom rest (n + 1) i
      (by simpa [assignRanksFrom, length_assignRanksFrom] using Nat.lt_of_succ_lt_succ hi)
      (Nat.lt_of_succ_lt_succ hl)
    simp only [assignRanksFrom, List.get_cons_succ, h]
    have : n + 1 + (i : Int) = n + ((i : Int) + 1) := by ring
    simp [this]

theorem map_fst_assignRanksFrom (n : Int) :
    ∀ l : List (String × OrangeAnalysisResult),
      (assignRanksFrom n l).map Prod.fst = l.map Prod.fst
  | [] => rfl
  | p :: rest => by
    simpa [assignRanksFrom, updRank] using map_fst_assignRanksFrom (n + 1) rest

theorem mem_assignRanksFrom :
    ∀ (l : List (String × OrangeAnalysisResult)) (n : Int) (p : String × OrangeAnalysisResult),
      p ∈ assignRanksFrom n l → ∃ q ∈ l, ∃ m : Int, p = updRank m q
  | [], _, _, h => absurd h (List.not_mem_nil _)
  | q :: rest, n, p, h => by
    rcases List.mem_cons.mp h with rfl | h
    · exact ⟨q, List.mem_cons_self _ _, n, rfl⟩
    · rcases mem_assignRanksFrom rest (n + 1) p h with ⟨q2, hq2, m, hm⟩
      exact ⟨q2, List.mem_cons_of_mem _ hq2, m, hm⟩

theorem pairwise_assignRanksFrom
    (R : String × OrangeAnalysisResult → String × OrangeAnalysisResult → Prop) :
    ∀ (l : List (String × OrangeAnalysisResult)) (n : Int),
      l.Pairwise (fun a b => ∀ m k : Int, R (updRank m a) (updRank k b)) →
      (assignRanksFrom n l).Pairwise R
  | [], _, _ => List.Pairwise.nil
  | p :: rest, n, h => by
    rw [List.pairwise_cons] at h
    rw [assignRanksFrom, List.pairwise_cons]
    refine ⟨?_, pairwise_assignRanksFrom R rest (n + 1) h.2⟩
    intro b hb
    rcases mem_assignRanksFrom rest (n + 1) b hb with ⟨q, hq, m, rfl⟩
    exact h.1 q hq n m

theorem filterMap_map_of_some {α γ δ : Type} (f : α → Option γ) (g : γ → δ) (g2 : α → δ) :
    ∀ l : List α, (∀ a ∈ l, ∃ b, f a = some b ∧ g b = g2 a) →
      (l.filterMap f).map g = l.map g2
  | [], _ => rfl
  | a :: rest, h => by
    rcases h a (List.mem_cons_self _ _) with ⟨b, hb, hgb⟩
    rw [List.filterMap_cons, hb, List.map_cons, List.map_cons, hgb,
      filterMap_map_of_some f g g2 rest (fun x hx => h x (List.mem_cons_of_mem _ hx))]

theorem length_filterMap_of_some {α γ : Type} (f : α → Option γ) (l : List α)
    (h : ∀ a ∈ l, ∃ b, f a = some b) : (l.filterMap f).length = l.length := by
  have := filterMap_map_of_some f (fun _ => ()) (fun _ => ()) l
    (fun a ha => by rcases h a ha with ⟨b, hb⟩; exact ⟨b, hb, rfl⟩)
  have h1 := congrArg List.length this
  simpa using h1

/-! ### Claim theorems -/

/-- C3: for every input text whose extracted JSON source fails to decode
(embedded as the decode outcome `none`), `_parse_single_response` returns
a result with `is_orange = false` and the fixed could-not-parse error
message; the embedding is a total function, mirroring that the
`json.JSONDecodeError` handler converts the failure into a result
instead of propagating an exception. -/
theorem parseSingle_decode_failure_fixed_error :
    parse_single_response none =
      { is_orange := false
        error_message := some "Could not parse analysis result. Please try again." } := rfl

/-- C2 counterexample: in the decoded object `singleBrixZero` both Brix
bounds are present (`brix_min = 0`, `brix_max = 14`), yet the produced
`brix_range` is absent — Python's `if brix_min and brix_max` treats the
present value `0` as falsy, refuting "equals the display string iff both
bounds are present". -/
theorem brixRange_present_zero_counterexample :
    singleBrixZero.brix_min = some 0 ∧ singleBrixZero.brix_max = some 14 ∧
    (parse_single_response (some singleBrixZero)).is_orange = true ∧
    (parse_single_response (some singleBrixZero)).brix_range = none := by
  refine ⟨rfl, rfl, by decide, by decide⟩

/-- C2 (amended): for every decoded response object (single-image and
each batch element), `brix_range` equals the string
`"{brixMin}~{brixMax}"` iff both `brix_min` and `brix_max` are present
AND nonzero (Python truthiness), and is absent whenever either bound is
absent or zero. -/
theorem brixRange_iff_truthy_bounds (d : SingleData) (e : MultiData)
    (hd : d.is_orange = some true) :
    ((∀ a b : ℚ, d.brix_min = some a → d.brix_max = some b → a ≠ 0 → b ≠ 0 →
        (parse_single_response (some d)).brix_range =
          some (toString a ++ "~" ++ toString b)) ∧
      ((d.brix_min = none ∨ d.brix_max = none ∨ d.brix_min = some 0 ∨ d.brix_max = some 0) →
        (parse_single_response (some d)).brix_range = none)) ∧
    ((∀ a b : ℚ, e.brix_min = some a → e.brix_max = some b → a ≠ 0 → b ≠ 0 →
        (multiResult e).brix_range = some (toString a ++ "~" ++ toString b)) ∧
      ((e.brix_min = none ∨ e.brix_max = none ∨ e.brix_min = some 0 ∨ e.brix_max = some 0) →
        (multiResult e).brix_range = none)) := by
  have hsingle : (parse_single_response (some d)).brix_range =
      brixRangeOf d.brix_min d.brix_max := by
    simp [parse_single_response, hd]
  have hmulti : (multiResult e).brix_range = brixRangeOf e.brix_min e.brix_max := rfl
  refine ⟨⟨?_, ?_⟩, ?_, ?_⟩
  · intro a b ha hb ha0 hb0
    rw [hsingle, ha, hb]
    simp [brixRangeOf, ha0, hb0]
  · intro hcase
    rw [hsingle]
    rcases hcase with h | h | h | h <;> rw [h] <;> cases hrem : d.brix_max <;>
      cases hrem2 : d.brix_min <;> simp [brixRangeOf]
  · intro a b ha hb ha0 hb0
    rw [hmulti, ha, hb]
    simp [brixRangeOf, ha0, hb0]
  · intro hcase
    rw [hmulti]
    rcases hcase with h | h | h | h <;> rw [h] <;> cases hrem : e.brix_max <;>
      cases hrem2 : e.brix_min <;> simp [brixRangeOf]

/-- C2 witness: the amended characterization applied to concrete decoded
objects with bounds 12/14 (single path) and 8/10 (batch element). -/
theorem brixRange_iff_truthy_bounds_witness :
    (parse_single_response (some singleBrix)).brix_range = some "12~14" ∧
    (multiResult multiBrix).brix_range = some "8~10" := by
  have h := brixRange_iff_truthy_bounds singleBrix multiBrix rfl
  exact ⟨h.1.1 12 14 rfl rfl (by norm_num) (by norm_num),
    h.2.1 8 10 rfl rfl (by norm_num) (by norm_num)⟩

/-- C8: for every decoded batch element carrying an `analysis_reason`,
the produced reason is `"{reason} ({note})"` when `comparison_note` is
present and non-empty, and the reason unchanged when the note is absent
or empty (`multiResult` is the per-element mapping of
`_parse_multi_response`). -/
theorem parseBatch_comparison_note_append (e : MultiData) (r : String)
    (hr : e.analysis_reason = some r) :
    (∀ note : String, e.comparison_note = some note → note ≠ "" →
      (multiResult e).analysis_reason = some (r ++ " (" ++ note ++ ")")) ∧
    ((e.comparison_note = none ∨ e.comparison_note = some "") →
      (multiResult e).analysis_reason = some r) := by
  constructor
  · intro note hn hne
    simp [multiResult, hn, hr, hne]
  · rintro (hn | hn) <;> simp [multiResult, hn, hr]

/-- C8 witness: `"High quality"` with note `"brighter peel"` combines to
`"High quality (brighter peel)"`; an empty note leaves it unchanged. -/
theorem parseBatch_comparison_note_append_witness :
    (multiResult elemNote).analysis_reason = some "High quality (brighter peel)" ∧
    (multiResult elemEmptyNote).analysis_reason = some "High quality" := by
  have h1 := parseBatch_comparison_note_append elemNote "High quality" rfl
  have h2 := parseBatch_comparison_note_append elemEmptyNote "High quality" rfl
  exact ⟨h1.1 "brighter peel" rfl (by decide), h2.2 (Or.inr rfl)⟩

/-- C10: a decoded batch element with no `image_index` key is not
dropped: `data.get("image_index", 1)` defaults the index to 1, so the
element is attributed to the first image of a non-empty input list, and
a batch decoding to just that element yields exactly that entry. -/
theorem parseBatch_missing_index_defaults_first {β : Type} (api : VisionAPIBase β)
    (images : List (String × β)) (d : MultiData)
    (hd : d.image_index = none) (hne : images ≠ []) :
    multiEntry images d = some ((images.head hne).1, multiResult d) ∧
    parse_multi_response api (some [d]) images = [((images.head hne).1, multiResult d)] := by
  have hget : images[(0 : Nat)]? = some (images.head hne) := by
    cases images with
    | nil => exact absurd rfl hne
    | cons a t => simp
  have hentry : multiEntry images d = some ((images.head hne).1, multiResult d) := by
    unfold multiEntry
    rw [hd]
    norm_num
    rw [hget]
  refine ⟨hentry, ?_⟩
  show sortOn (fun p => rankKey p.2.rank) ([d].filterMap (multiEntry images)) = _
  rw [List.filterMap_cons, hentry]
  rfl

/-- C10 witness: the element `elemNoIndex` (no `image_index` key) fed
into the batch parser with the two-image list is attributed to image
`"a"`. -/
theorem parseBatch_missing_index_defaults_first_witness :
    multiEntry imgsTwo elemNoIndex = some ("a", multiResult elemNoIndex) ∧
    parse_multi_response apiFail (some [elemNoIndex]) imgsTwo =
      [("a", multiResult elemNoIndex)] := by
  have h := parseBatch_missing_index_defaults_first apiFail imgsTwo elemNoIndex rfl (by decide)
  exact h

/-- C7: a single-element input list makes `analyze_multiple` delegate to
`analyze`, force `rank = 1` and return a singleton batch; the result is
unchanged under any replacement of the multi-image capability entry
point, i.e. that entry point is never consulted. -/
theorem analyzeMultiple_singleton_delegates {β : Type} (api api2 : VisionAPIBase β)
    (filename : String) (image_data : β)
    (hagree : api.analyze_image = api2.analyze_image) :
    analyze_multiple api [(filename, image_data)] =
      [(filename, { analyze api image_data with rank := some 1 })] ∧
    analyze_multiple api [(filename, image_data)] =
      analyze_multiple api2 [(filename, image_data)] := by
  have e1 : analyze_multiple api [(filename, image_data)] =
      [(filename, { analyze api image_data with rank := some 1 })] := rfl
  have e2 : analyze_multiple api2 [(filename, image_data)] =
      [(filename, { analyze api2 image_data with rank := some 1 })] := rfl
  have he : analyze api image_data = analyze api2 image_data := by
    unfold analyze
    rw [hagree]
  refine ⟨e1, ?_⟩
  rw [e1, e2, he]

/-- C7 witness: two capabilities sharing the single-image entry point but
with different batch entry points (one raising, one returning an
undecodable text) give the same singleton batch with rank 1. -/
theorem analyzeMultiple_singleton_delegates_witness :
    analyze_multiple apiFail [("a", 7)] =
      [("a", { analyze apiFail 7 with rank := some 1 })] ∧
    analyze_multiple apiFail [("a", 7)] = analyze_multiple apiAltMulti [("a", 7)] :=
  analyzeMultiple_singleton_delegates apiFail apiAltMulti "a" 7 rfl

/-! ### Helper lemmas about the fallback path -/

theorem fallback_eq {β : Type} (api : VisionAPIBase β) (images : List (String × β))
    (emsg : String) :
    fallback_individual_analysis api images emsg =
      assignRanksFrom 1 (sortOn (fun p => -(sort_key p.2))
        (images.map (fun p => (p.1, analyze api p.2)))) := rfl

theorem fallback_length {β : Type} (api : VisionAPIBase β) (images : List (String × β))
    (emsg : String) :
    (fallback_individual_analysis api images emsg).length = images.length := by
  rw [fallback_eq, length_assignRanksFrom, length_sortOn, List.length_map]

theorem map_rank_assignRanksFrom :
    ∀ (l : List (String × OrangeAnalysisResult)) (n : Int),
      (assignRanksFrom n l).map (fun p => p.2.rank) =
        (List.range l.length).map (fun i : Nat => some (n + (i : Int)))
  | [], _ => rfl
  | p :: rest, n => by
    have ih := map_rank_assignRanksFrom rest (n + 1)
    rw [assignRanksFrom, List.map_cons, ih, List.length_cons, List.range_succ_eq_map,
      List.map_cons, List.map_map]
    congr 1
    · simp [updRank]
    · have hfun : ((fun i : Nat => some (n + (i : Int))) ∘ Nat.succ) =
          (fun i : Nat => some (n + 1 + (i : Int))) := by
        funext i
        simp only [Function.comp, Option.some.injEq]
        push_cast
        ring
      rw [hfun]

theorem fallback_map_rank {β : Type} (api : VisionAPIBase β) (images : List (String × β))
    (emsg : String) :
    (fallback_individual_analysis api images emsg).map (fun p => p.2.rank) =
      (List.range images.length).map (fun i : Nat => some ((i : Int) + 1)) := by
  rw [fallback_eq, map_rank_assignRanksFrom, length_sortOn, List.length_map]
  have hfun : (fun i : Nat => some ((1 : Int) + (i : Int))) =
      (fun i : Nat => some ((i : Int) + (1 : Int))) := by
    funext i
    simp only [Option.some.injEq]
    ring
  rw [hfun]

theorem fallback_map_fst_perm {β : Type} (api : VisionAPIBase β) (images : List (String × β))
    (emsg : String) :
    List.Perm ((fallback_individual_analysis api images emsg).map Prod.fst)
      (images.map Prod.fst) := by
  rw [fallback_eq, map_fst_assignRanksFrom]
  have hp := (perm_sortOn (fun p => -(sort_key p.2))
    (images.map (fun p => (p.1, analyze api p.2)))).map Prod.fst
  refine hp.trans ?_
  rw [List.map_map]
  exact List.Perm.refl _

theorem mem_fallback {β : Type} (api : VisionAPIBase β) (images : List (String × β))
    (emsg : String) (p : String × OrangeAnalysisResult)
    (h : p ∈ fallback_individual_analysis api images emsg) :
    ∃ q ∈ images, ∃ m : Int, p = updRank m (q.1, analyze api q.2) := by
  rw [fallback_eq] at h
  rcases mem_assignRanksFrom _ 1 p h with ⟨q2, hq2, m, rfl⟩
  have hmem : q2 ∈ images.map (fun p => (p.1, analyze api p.2)) :=
    ((perm_sortOn _ _).mem_iff).mp hq2
  rcases List.mem_map.mp hmem with ⟨q, hq, rfl⟩
  exact ⟨q, hq, m, rfl⟩

theorem fallback_pairwise {β : Type} (api : VisionAPIBase β) (images : List (String × β))
    (emsg : String)
    (R : (String × OrangeAnalysisResult) → (String × OrangeAnalysisResult) → Prop)
    (hR : ∀ a b, a ∈ images.map (fun p => (p.1, analyze api p.2)) →
      b ∈ images.map (fun p => (p.1, analyze api p.2)) →
      sort_key b.2 ≤ sort_key a.2 → ∀ m k : Int, R (updRank m a) (updRank k b)) :
    (fallback_individual_analysis api images emsg).Pairwise R := by
  rw [fallback_eq]
  apply pairwise_assignRanksFrom
  have hs := pairwise_sortOn (fun p => -(sort_key p.2))
    (images.map (fun p => (p.1, analyze api p.2)))
  refine List.Pairwise.imp_of_mem ?_ hs
  intro a b ha hb hab
  have ha2 : a ∈ images.map (fun p => (p.1, analyze api p.2)) := (perm_sortOn _ _).mem_iff.mp ha
  have hb2 : b ∈ images.map (fun p => (p.1, analyze api p.2)) := (perm_sortOn _ _).mem_iff.mp hb
  exact hR a b ha2 hb2 (by linarith)

theorem sort_key_nonneg (r : OrangeAnalysisResult) (ho : r.is_orange = true)
    (hs : ∀ s : ℚ, r.sweetness_score = some s → 0 ≤ s)
    (hb : ∀ b : ℚ, r.brix_max = some b → 0 ≤ b) : 0 ≤ sort_key r := by
  cases hss : r.sweetness_score with
  | some s =>
    have h0s := hs s hss
    by_cases hz : s = 0
    · cases hbb : r.brix_max with
      | some b =>
        have h0b := hb b hbb
        by_cases hbz : b = 0 <;> simp [sort_key, ho, hss, hbb, hz, hbz] <;> linarith
      | none => simp [sort_key, ho, hss, hbb, hz]
    · simp [sort_key, ho, hss, hz]
      linarith
  | none =>
    cases hbb : r.brix_max with
    | some b =>
      have h0b := hb b hbb
      by_cases hbz : b = 0 <;> simp [sort_key, ho, hss, hbb, hbz] <;> linarith
    | none => simp [sort_key, ho, hss, hbb]

/-- C5 counterexample: in a fallback run, the orange of image `"a"` has
`sweetness_score` PRESENT with value `0` (and `brix_max = 14`), the
orange of `"b"` has score `10`; ordering "descending by sweetnessScore
if present" would rank `"b"` (10) above `"a"` (0), but Python's
`sweetness_score or brix_max or 0` treats the present `0` as missing,
keys `"a"` at `14`, and ranks `"a"` first. -/
theorem fallback_zero_score_policy_counterexample :
    (fallback_individual_analysis apiZeroScore imgsOneTwo "").map
      (fun p => (p.1, p.2.rank, p.2.is_orange, p.2.sweetness_score, p.2.brix_max)) =
      [("a", some 1, true, some 0, some 14), ("b", some 2, true, some 10, none)] := by decide

/-- C5 (amended): every fallback invocation on an N-image list returns N
results with ranks 1..N assigned by final sorted position (dense and
contiguous), ordered descending by the Python-truthy key
(`sweetness_score` if present and nonzero, else `brix_max` if present
and nonzero, else 0 — the embedded `sort_key`); the [40, 90, 70] example
yields ranks 1→90, 2→70, 3→40. -/
theorem fallback_dense_ranks_truthy_key_order {β : Type} (api : VisionAPIBase β)
    (images : List (String × β)) (emsg : String) :
    ((fallback_individual_analysis api images emsg).length = images.length) ∧
    ((fallback_individual_analysis api images emsg).map (fun p => p.2.rank) =
      (List.range images.length).map (fun i : Nat => some ((i : Int) + 1))) ∧
    ((fallback_individual_analysis api images emsg).Pairwise
      (fun p q => p.2.is_orange = true → q.2.is_orange = true →
        sort_key q.2 ≤ sort_key p.2)) ∧
    ((fallback_individual_analysis apiScores imgsThree "").map
      (fun p => (p.1, p.2.rank, p.2.sweetness_score)) =
      [("b", some 1, some 90), ("c", some 2, some 70), ("a", some 3, some 40)]) := by
  refine ⟨fallback_length api images emsg, fallback_map_rank api images emsg, ?_, by decide⟩
  apply fallback_pairwise
  intro a b ha hb hkey m k
  intro hoa hob
  exact hkey

/-- C6: in the fallback path every non-orange result sorts after every
orange result: its sort key is the sentinel `-1` whatever numeric fields
the record carries, which is lower than the key of any orange whose
(present) `sweetness_score` and `brix_max` are nonnegative — so once a
non-orange result appears, everything after it is non-orange too. -/
theorem fallback_nonorange_sorts_last {β : Type} (api : VisionAPIBase β)
    (images : List (String × β)) (emsg : String)
    (hnn : ∀ q ∈ images, (analyze api q.2).is_orange = true →
      (∀ s : ℚ, (analyze api q.2).sweetness_score = some s → 0 ≤ s) ∧
      (∀ b : ℚ, (analyze api q.2).brix_max = some b → 0 ≤ b)) :
    (∀ r : OrangeAnalysisResult, r.is_orange = false → sort_key r = -1) ∧
    (fallback_individual_analysis api images emsg).Pairwise
      (fun p q => p.2.is_orange = false → q.2.is_orange = false) := by
  constructor
  · intro r h
    simp [sort_key, h]
  · apply fallback_pairwise
    intro a b ha hb hkey m k hfalse
    have hfa : a.2.is_orange = false := hfalse
    show b.2.is_orange = false
    cases hB : b.2.is_orange with
    | false => rfl
    | true =>
      exfalso
      rcases List.mem_map.mp hb with ⟨q, hq, rfl⟩
      have hnnq := hnn q hq hB
      have hpos : 0 ≤ sort_key (q.1, analyze api q.2).2 :=
        sort_key_nonneg _ hB hnnq.1 hnnq.2
      have hneg : sort_key a.2 = -1 := by simp [sort_key, hfa]
      rw [hneg] at hkey
      linarith

/-- C6 witness: the sentinel applies to a non-orange record carrying
numeric fields, and the fallback batch of one non-orange image among two
score-80 oranges places every non-orange result after every orange. -/
theorem fallback_nonorange_sorts_last_witness :
    sort_key { is_orange := false, sweetness_score := some 100, brix_max := some 99 } = -1 ∧
    (fallback_individual_analysis apiNonOrange imgsThree "").Pairwise
      (fun p q => p.2.is_orange = false → q.2.is_orange = false) ∧
    (fallback_individual_analysis apiNonOrange imgsThree "").map
      (fun p => (p.1, p.2.is_orange, p.2.rank)) =
      [("b", true, some 1), ("c", true, some 2), ("a", false, some 3)] := by
  have hnn : ∀ q ∈ imgsThree, (analyze apiNonOrange q.2).is_orange = true →
      (∀ s : ℚ, (analyze apiNonOrange q.2).sweetness_score = some s → 0 ≤ s) ∧
      (∀ b : ℚ, (analyze apiNonOrange q.2).brix_max = some b → 0 ≤ b) := by
    intro q hq
    simp only [imgsThree, List.mem_cons, List.not_mem_nil, or_false] at hq
    rcases hq with rfl | rfl | rfl
    · intro ho
      exact absurd ho (by decide)
    · intro ho
      constructor
      · intro s hs
        have h80 : (analyze apiNonOrange 2).sweetness_score = some 80 := rfl
        rw [h80] at hs
        cases hs
        norm_num
      · intro b hbx
        have hnone : (analyze apiNonOrange 2).brix_max = none := rfl
        rw [hnone] at hbx
        cases hbx
    · intro ho
      constructor
      · intro s hs
        have h80 : (analyze apiNonOrange 3).sweetness_score = some 80 := rfl
        rw [h80] at hs
        cases hs
        norm_num
      · intro b hbx
        have hnone : (analyze apiNonOrange 3).brix_max = none := rfl
        rw [hnone] at hbx
        cases hbx
  have h := fallback_nonorange_sorts_last apiNonOrange imgsThree "" hnn
  exact ⟨h.1 _ rfl, h.2, by decide⟩

/-- C1: for an input list of two or more images, when the multi-image
capability call raises or its response fails to decode,
`analyze_multiple` invokes the fallback on the original image list and
the returned batch has exactly one entry per input image (same
filenames, same length), every entry carrying a rank, with ranks 1..N in
order; the embedding is total, so no raised failure propagates. -/
theorem analyzeMultiple_failure_invokes_fallback_fully_ranked {β : Type}
    (api : VisionAPIBase β) (images : List (String × β))
    (hlen : 2 ≤ images.length)
    (hfail : (∃ e, api.analyze_multiple_images (images.map Prod.snd) = Except.error e) ∨
      api.analyze_multiple_images (images.map Prod.snd) = Except.ok none) :
    (∃ m, analyze_multiple api images = fallback_individual_analysis api images m) ∧
    ((analyze_multiple api images).length = images.length) ∧
    (List.Perm ((analyze_multiple api images).map Prod.fst) (images.map Prod.fst)) ∧
    ((analyze_multiple api images).map (fun p => p.2.rank) =
      (List.range images.length).map (fun i : Nat => some ((i : Int) + 1))) := by
  obtain ⟨a, b, t, rfl⟩ : ∃ a b t, images = a :: b :: t := by
    cases images with
    | nil => norm_num at hlen
    | cons a t =>
      cases t with
      | nil => norm_num at hlen
      | cons b t2 => exact ⟨a, b, t2, rfl⟩
  have hfb : ∃ m, analyze_multiple api (a :: b :: t) =
      fallback_individual_analysis api (a :: b :: t) m := by
    rcases hfail with ⟨e, he⟩ | hok
    · refine ⟨e, ?_⟩
      show (match api.analyze_multiple_images ((a :: b :: t).map Prod.snd) with
        | Except.ok response => parse_multi_response api response (a :: b :: t)
        | Except.error e2 => fallback_individual_analysis api (a :: b :: t) e2) =
          fallback_individual_analysis api (a :: b :: t) e
      rw [he]
    · refine ⟨"", ?_⟩
      show (match api.analyze_multiple_images ((a :: b :: t).map Prod.snd) with
        | Except.ok response => parse_multi_response api response (a :: b :: t)
        | Except.error e2 => fallback_individual_analysis api (a :: b :: t) e2) =
          fallback_individual_analysis api (a :: b :: t) ""
      rw [hok]
      rfl
  rcases hfb with ⟨m, hm⟩
  rw [hm]
  exact ⟨⟨m, rfl⟩, fallback_length api _ m, fallback_map_fst_perm api _ m,
    fallback_map_rank api _ m⟩

/-- C1 witness: the two-image list under the capability whose batch call
raises `"boom"` receives a two-entry batch with ranks 1 and 2. -/
theorem analyzeMultiple_failure_invokes_fallback_fully_ranked_witness :
    ((analyze_multiple apiFail imgsTwo).length = imgsTwo.length) ∧
    ((analyze_multiple apiFail imgsTwo).map (fun p => p.2.rank) =
      (List.range imgsTwo.length).map (fun i : Nat => some ((i : Int) + 1))) := by
  have h := analyzeMultiple_failure_invokes_fallback_fully_ranked apiFail imgsTwo
    (by decide) (Or.inl ⟨"boom", rfl⟩)
  exact ⟨h.2.1, h.2.2.2⟩

/-! ### Helper lemmas for the non-orange invariant and batch parsing -/

theorem error_during_analysis_ne_empty (e : String) :
    ("Error during analysis: " ++ e) ≠ "" := by
  intro h
  have hlen := congrArg String.length h
  rw [String.length_append] at hlen
  have h23 : ("Error during analysis: ").length = 23 := rfl
  rw [h23] at hlen
  simp at hlen

theorem parse_single_nonorange (o : Option SingleData)
    (h : (parse_single_response o).is_orange = false) :
    nonOrangeClean (parse_single_response o) := by
  cases o with
  | none =>
    exact ⟨rfl, rfl, rfl, rfl, rfl, rfl, rfl, rfl, rfl, rfl, _, rfl, by decide⟩
  | some d =>
    by_cases hd : d.is_orange.getD false = false
    · have he : parse_single_response (some d) =
          { is_orange := false
            error_message := some "This is not an orange image. Please upload an orange photo." } := by
        simp [parse_single_response, hd]
      rw [he]
      exact ⟨rfl, rfl, rfl, rfl, rfl, rfl, rfl, rfl, rfl, rfl, _, rfl, by decide⟩
    · have he : (parse_single_response (some d)).is_orange = true := by
        simp [parse_single_response, hd]
      rw [he] at h
      cases h

theorem analyze_nonorange {β : Type} (api : VisionAPIBase β) (img : β)
    (h : (analyze api img).is_orange = false) : nonOrangeClean (analyze api img) := by
  unfold analyze at h ⊢
  cases hres : api.analyze_image img with
  | ok o =>
    rw [hres] at h
    exact parse_single_nonorange o h
  | error e =>
    exact ⟨rfl, rfl, rfl, rfl, rfl, rfl, rfl, rfl, rfl, rfl, _, rfl,
      error_during_analysis_ne_empty e⟩

theorem fallback_nonorange {β : Type} (api : VisionAPIBase β) (images : List (String × β))
    (emsg : String) (p : String × OrangeAnalysisResult)
    (hp : p ∈ fallback_individual_analysis api images emsg)
    (h : p.2.is_orange = false) : nonOrangeClean p.2 := by
  rcases mem_fallback api images emsg p hp with ⟨q, hq, m2, rfl⟩
  have h2 : (analyze api q.2).is_orange = false := h
  exact analyze_nonorange api q.2 h2

theorem multiEntry_inv {β : Type} (images : List (String × β)) (d : MultiData)
    (p : String × OrangeAnalysisResult) (h : multiEntry images d = some p) :
    ∃ pr, images[(d.image_index.getD 1 - 1).toNat]? = some pr ∧ p = (pr.1, multiResult d) := by
  unfold multiEntry at h
  by_cases h0 : (0 : Int) ≤ d.image_index.getD 1 - 1
  · rw [if_pos h0] at h
    cases heq : images[(d.image_index.getD 1 - 1).toNat]? with
    | none =>
      rw [heq] at h
      exact Option.noConfusion h
    | some pr =>
      rw [heq] at h
      have h2 : some (pr.1, multiResult d) = some p := h
      exact ⟨pr, rfl, (Option.some.inj h2).symm⟩
  · rw [if_neg h0] at h
    exact Option.noConfusion h

theorem parse_multi_nonorange {β : Type} (api : VisionAPIBase β)
    (decoded : Option (List MultiData)) (images : List (String × β))
    (p : String × OrangeAnalysisResult) (hp : p ∈ parse_multi_response api decoded images)
    (h : p.2.is_orange = false) : nonOrangeClean p.2 := by
  cases decoded with
  | none => exact fallback_nonorange api images "" p hp h
  | some dl =>
    have hp2 : p ∈ dl.filterMap (multiEntry images) := (perm_sortOn _ _).mem_iff.mp hp
    rcases List.mem_filterMap.mp hp2 with ⟨d, hd, hsome⟩
    rcases multiEntry_inv images d p hsome with ⟨pr, hpr, rfl⟩
    have ht : (multiResult d).is_orange = true := rfl
    rw [ht] at h
    cases h

/-- C9: every result produced by `analyze`, `_parse_single_response`,
`_parse_multi_response` or `_fallback_individual_analysis` with
`is_orange = false` has every grade, Brix, score and analysis field
absent and a non-empty error message set (the `rank` field, which the
fallback also stamps on non-orange results, is outside the invariant). -/
theorem nonorange_fields_absent_error_set {β : Type} :
    (∀ (api : VisionAPIBase β) (img : β),
      (analyze api img).is_orange = false → nonOrangeClean (analyze api img)) ∧
    (∀ o : Option SingleData,
      (parse_single_response o).is_orange = false →
        nonOrangeClean (parse_single_response o)) ∧
    (∀ (api : VisionAPIBase β) (decoded : Option (List MultiData))
      (images : List (String × β)) (p : String × OrangeAnalysisResult),
      p ∈ parse_multi_response api decoded images → p.2.is_orange = false →
        nonOrangeClean p.2) ∧
    (∀ (api : VisionAPIBase β) (images : List (String × β)) (emsg : String)
      (p : String × OrangeAnalysisResult),
      p ∈ fallback_individual_analysis api images emsg → p.2.is_orange = false →
        nonOrangeClean p.2) :=
  ⟨fun api img => analyze_nonorange api img,
   fun o => parse_single_nonorange o,
   fun api decoded images p => parse_multi_nonorange api decoded images p,
   fun api images emsg p => fallback_nonorange api images emsg p⟩

/-- C9 witness: the decode-failure result and the raised-failure result
are non-orange with all fields absent and a non-empty message. -/
theorem nonorange_fields_absent_error_set_witness :
    (parse_single_response (none : Option SingleData)).is_orange = false ∧
    nonOrangeClean (parse_single_response (none : Option SingleData)) ∧
    (analyze apiFail 0).is_orange = false ∧ nonOrangeClean (analyze apiFail 0) := by
  have h := nonorange_fields_absent_error_set (β := Nat)
  exact ⟨rfl, h.2.1 none rfl, rfl, h.1 apiFail 0 rfl⟩

/-- C4 counterexample: a decoded batch pairing an element with NO rank
(sentinel key 999) and an element with the present positive rank 1000
(key 1000): the absent-rank entry sorts BEFORE the ranked one, refuting
"elements with an absent rank sort after all elements that have one". -/
theorem parseBatch_absent_rank_not_last_counterexample :
    (parse_multi_response apiFail (some [elemNoRank, elemRank1000]) imgsTwo).map
      (fun p => (p.1, p.2.rank)) = [("a", none), ("b", some 1000)] := by decide

theorem rankKey_some_pos (a : Int) (h : 1 ≤ a) : rankKey (some a) = a := by
  show (if a ≠ 0 then a else 999) = a
  rw [if_pos (by omega : a ≠ 0)]

theorem multiEntry_eq_some_of_inrange {β : Type} (images : List (String × β)) (d : MultiData)
    (j : Int) (hj : d.image_index = some j) (h1 : 1 ≤ j) (h2 : j ≤ (images.length : Int)) :
    ∃ pr, images[(j - 1).toNat]? = some pr ∧
      multiEntry images d = some (pr.1, multiResult d) := by
  have hgd : d.image_index.getD 1 = j := by rw [hj]; rfl
  have hlt : (j - 1).toNat < images.length := by omega
  refine ⟨images.get ⟨(j - 1).toNat, hlt⟩, ?_, ?_⟩
  · rw [List.getElem?_eq_getElem hlt]
    rfl
  · unfold multiEntry
    rw [hgd, if_pos (by omega : (0 : Int) ≤ j - 1), List.getElem?_eq_getElem hlt]
    rfl

/-- C4 (amended): a batch response whose N elements carry pairwise
distinct ranks, each in 1..N, and valid 1-based image indices produces an
output batch of length N ordered strictly ascending by rank, each entry
being the referenced input's identifier paired with its element's
translation; and in general an element with an absent rank (sentinel key
999) sorts after every element whose present rank is below 999 — not
after ranks of 999 or more, and a present rank of 0 is also treated as
the sentinel. -/
theorem parseBatch_roundtrip_rank_order {β : Type} (api : VisionAPIBase β)
    (ds : List MultiData) (images : List (String × β))
    (hlen : ds.length = images.length)
    (hrank : ∀ d ∈ ds, ∃ r : Int, d.rank = some r ∧ 1 ≤ r ∧ r ≤ (images.length : Int))
    (hnodup : (ds.map MultiData.rank).Nodup)
    (hidx : ∀ d ∈ ds, ∃ j : Int, d.image_index = some j ∧ 1 ≤ j ∧ j ≤ (images.length : Int)) :
    ((parse_multi_response api (some ds) images).length = images.length) ∧
    ((parse_multi_response api (some ds) images).Pairwise
      (fun p q => ∃ a b : Int, p.2.rank = some a ∧ q.2.rank = some b ∧ a < b)) ∧
    (∀ p ∈ parse_multi_response api (some ds) images, ∃ d ∈ ds, ∃ j : Int, ∃ pr,
      d.image_index = some j ∧ images[(j - 1).toNat]? = some pr ∧
        p = (pr.1, multiResult d)) ∧
    (∀ (api2 : VisionAPIBase β) (ds2 : List MultiData) (images2 : List (String × β)),
      (parse_multi_response api2 (some ds2) images2).Pairwise
        (fun p q => p.2.rank = none → ∀ r : Int, q.2.rank = some r →
          r = 0 ∨ 999 ≤ r)) := by
  have hout : parse_multi_response api (some ds) images =
      sortOn (fun p => rankKey p.2.rank) (ds.filterMap (multiEntry images)) := rfl
  have hall : ∀ d ∈ ds, ∃ b, multiEntry images d = some b := by
    intro d hd
    rcases hidx d hd with ⟨j, hj, hj1, hj2⟩
    rcases multiEntry_eq_some_of_inrange images d j hj hj1 hj2 with ⟨pr, hpr, hme⟩
    exact ⟨_, hme⟩
  have hlenFM : (ds.filterMap (multiEntry images)).length = ds.length :=
    length_filterMap_of_some _ ds hall
  have hmemchar : ∀ p ∈ parse_multi_response api (some ds) images, ∃ d ∈ ds,
      multiEntry images d = some p := by
    intro p hp
    rw [hout] at hp
    have hp2 : p ∈ ds.filterMap (multiEntry images) := (perm_sortOn _ _).mem_iff.mp hp
    rcases List.mem_filterMap.mp hp2 with ⟨d, hd, hm⟩
    exact ⟨d, hd, hm⟩
  have hmemrank : ∀ p ∈ parse_multi_response api (some ds) images, ∃ a : Int,
      p.2.rank = some a ∧ 1 ≤ a := by
    intro p hp
    rcases hmemchar p hp with ⟨d, hd, hm⟩
    rcases multiEntry_inv images d p hm with ⟨pr, hpr, rfl⟩
    rcases hrank d hd with ⟨r, hr, hr1, hr2⟩
    exact ⟨r, hr, hr1⟩
  have hmapr : (ds.filterMap (multiEntry images)).map (fun p => p.2.rank) =
      ds.map MultiData.rank := by
    apply filterMap_map_of_some
    intro d hd
    rcases hall d hd with ⟨b, hb⟩
    refine ⟨b, hb, ?_⟩
    rcases multiEntry_inv images d b hb with ⟨pr, hpr, rfl⟩
    rfl
  have hnodupOut : ((parse_multi_response api (some ds) images).map
      (fun p => p.2.rank)).Nodup := by
    rw [hout]
    have hperm := (perm_sortOn (fun p => rankKey p.2.rank)
      (ds.filterMap (multiEntry images))).map (fun p => p.2.rank)
    rw [hmapr] at hperm
    exact hperm.nodup_iff.mpr hnodup
  have hpw : (parse_multi_response api (some ds) images).Pairwise
      (fun p q => rankKey p.2.rank ≤ rankKey q.2.rank) := by
    rw [hout]
    exact pairwise_sortOn _ _
  have hpne : (parse_multi_response api (some ds) images).Pairwise
      (fun p q => p.2.rank ≠ q.2.rank) := List.pairwise_map.mp hnodupOut
  refine ⟨?_, ?_, ?_, ?_⟩
  · rw [hout, length_sortOn, hlenFM, hlen]
  · refine List.Pairwise.imp_of_mem ?_ (hpw.and hpne)
    intro p q hp hq hpq
    rcases hmemrank p hp with ⟨a, ha, ha1⟩
    rcases hmemrank q hq with ⟨b, hb, hb1⟩
    refine ⟨a, b, ha, hb, ?_⟩
    have hka := rankKey_some_pos a ha1
    have hkb := rankKey_some_pos b hb1
    have hle : rankKey p.2.rank ≤ rankKey q.2.rank := hpq.1
    rw [ha, hb, hka, hkb] at hle
    have hne : p.2.rank ≠ q.2.rank := hpq.2
    rw [ha, hb] at hne
    have : a ≠ b := fun hab => hne (by rw [hab])
    omega
  · intro p hp
    rcases hmemchar p hp with ⟨d, hd, hm⟩
    rcases hidx d hd with ⟨j, hj, hj1, hj2⟩
    rcases multiEntry_eq_some_of_inrange images d j hj hj1 hj2 with ⟨pr, hpr, hme⟩
    rw [hm] at hme
    exact ⟨d, hd, j, pr, hj, hpr, Option.some.inj hme⟩
  · intro api2 ds2 images2
    have hout2 : parse_multi_response api2 (some ds2) images2 =
        sortOn (fun p => rankKey p.2.rank) (ds2.filterMap (multiEntry images2)) := rfl
    rw [hout2]
    refine List.Pairwise.imp_of_mem ?_ (pairwise_sortOn _ _)
    intro p q hp hq hpq hnone r hr
    rw [hnone, hr] at hpq
    by_cases hz : r = 0
    · exact Or.inl hz
    · right
      have hkr : rankKey (some r) = r := by
        show (if r ≠ 0 then r else 999) = r
        rw [if_pos hz]
      have hkn : rankKey (none : Option Int) = 999 := rfl
      rw [hkr, hkn] at hpq
      exact hpq

/-- C4 witness: two elements with ranks 2 and 1 pointing at images 1 and
2 round-trip into a two-entry batch sorted ascending by rank with the
referenced identifiers. -/
theorem parseBatch_roundtrip_rank_order_witness :
    ((parse_multi_response apiFail (some [elemSwap1, elemSwap2]) imgsTwo).length =
      imgsTwo.length) ∧
    ((parse_multi_response apiFail (some [elemSwap1, elemSwap2]) imgsTwo).map
      (fun p => (p.1, p.2.rank)) = [("b", some 1), ("a", some 2)]) := by
  have hrank : ∀ d ∈ [elemSwap1, elemSwap2], ∃ r : Int,
      d.rank = some r ∧ 1 ≤ r ∧ r ≤ (imgsTwo.length : Int) := by
    intro d hd
    simp only [List.mem_cons, List.not_mem_nil, or_false] at hd
    rcases hd with rfl | rfl
    · exact ⟨1, rfl, by decide, by decide⟩
    · exact ⟨2, rfl, by decide, by decide⟩
  have hidx : ∀ d ∈ [elemSwap1, elemSwap2], ∃ j : Int,
      d.image_index = some j ∧ 1 ≤ j ∧ j ≤ (imgsTwo.length : Int) := by
    intro d hd
    simp only [List.mem_cons, List.not_mem_nil, or_false] at hd
    rcases hd with rfl | rfl
    · exact ⟨2, rfl, by decide, by decide⟩
    · exact ⟨1, rfl, by decide, by decide⟩
  have h := parseBatch_roundtrip_rank_order apiFail [elemSwap1, elemSwap2] imgsTwo
    rfl hrank (by decide) hidx
  exact ⟨h.1, by decide⟩
